import Mathlib

/-!
Verification of the Marlu visibility-selection / uvfits-serialization core.

This file gives a shallow embedding, in Lean 4, of the parts of the Marlu
radio-interferometry library (src/io/uvfits.rs, src/selection.rs,
src/jones.rs, src/pos/lmn.rs) needed to settle the frozen claims about it,
and proves or refutes each claim.

Modelling conventions:
* Rust `usize` values are modelled as `Nat`.  Where `usize` subtraction could
  underflow this is noted at the definition.
* `f64` data-plane arithmetic (values that are only moved, added, divided and
  compared, with no reliance on rounding) is modelled by exact rationals `ℚ`;
  the `as f32` narrowing casts are modelled by an arbitrary function
  `f32 : ℚ → ℚ` so that the data-flow statements hold for every rounding.
* For the Jones-inverse NaN claim, IEEE-754 special-value semantics matter, so
  a dedicated scalar type `F` (finite rational / ±infinity / NaN, idealized
  with exact finite arithmetic) is used there.
* External collaborators (cfitsio calls, the mwalib HDU reader, the memory
  allocator) are modelled by explicit outcome parameters, exactly at the
  points where the Rust code consumes their results.
-/

set_option maxHeartbeats 1000000

namespace Marlu

/-! ## Baseline encoding — src/io/uvfits.rs lines 69–90

`pub const fn encode_uvfits_baseline(ant1: usize, ant2: usize) -> usize`:
if `ant2 > 255` then `ant1 * 2048 + ant2 + 65_536` else `ant1 * 256 + ant2`. -/

def encode_uvfits_baseline (ant1 ant2 : Nat) : Nat :=
  if 255 < ant2 then ant1 * 2048 + ant2 + 65536 else ant1 * 256 + ant2

/-- Decode a uvfits baseline id; src/io/uvfits.rs lines 80–90.
The subtractions `bl - ant2`, `bl - 65_536` and `bl - ant2 - 65_536` are
`usize` subtractions in the source (panicking on underflow in debug builds);
`Nat` truncated subtraction agrees with the source whenever no underflow
occurs, which is the case on every input considered in the theorems below
except where explicitly discussed (`bl = 65535`). -/
def decode_uvfits_baseline (bl : Nat) : Nat × Nat :=
  if bl < 65535 then
    let ant2 := bl % 256
    let ant1 := (bl - ant2) / 256
    (ant1, ant2)
  else
    let ant2 := (bl - 65536) % 2048
    let ant1 := (bl - ant2 - 65536) / 2048
    (ant1, ant2)

/-! ## VisSelection — src/selection.rs lines 119–305 -/

/-- A half-open index range, modelling Rust's `Range<usize>`
(`start..stop`); `len = stop - start` (saturating, as `Iterator::len`
on an exhausted-or-empty range is 0). -/
structure RangeN where
  start : Nat
  stop : Nat
deriving DecidableEq, Repr

def RangeN.len (r : RangeN) : Nat := r.stop - r.start

/-- The list of indices of the range, in iteration order
(`start, start+1, …, stop−1`). -/
def RangeN.toList (r : RangeN) : List Nat :=
  (List.range r.len).map fun p => r.start + p

/-- src/selection.rs lines 119–127: the three selection fields. -/
structure VisSelection where
  timestep_range : RangeN
  coarse_chan_range : RangeN
  baseline_idxs : List Nat
deriving DecidableEq, Repr

/-- src/selection.rs lines 214–219 (`VisSelection::get_shape`). -/
def VisSelection.get_shape (s : VisSelection) (fine_chans_per_coarse : Nat) :
    Nat × Nat × Nat :=
  let num_chans := s.coarse_chan_range.len * fine_chans_per_coarse
  let num_baselines := s.baseline_idxs.length
  let num_timesteps := s.timestep_range.len
  (num_timesteps, num_chans, num_baselines)

/-- Size in bytes of the Rust types involved in `estimate_bytes_best`:
`size_of::<Jones<f32>>() = 32` (four `Complex<f32>`, eight `f32`s),
`size_of::<f32>() = 4`, `size_of::<bool>() = 1`. -/
def size_of_jones_f32 : Nat := 32

def size_of_f32 : Nat := 4

def size_of_bool : Nat := 1

/-- src/selection.rs lines 222–230 (`VisSelection::estimate_bytes_best`). -/
def VisSelection.estimate_bytes_best (s : VisSelection)
    (fine_chans_per_coarse : Nat) : Nat :=
  let shape := s.get_shape fine_chans_per_coarse
  shape.1 * shape.2.1 * shape.2.2 * (size_of_jones_f32 + size_of_f32 + size_of_bool)

/-! ## LMN / LmnRime — src/pos/lmn.rs -/

/-- The exact rational value of the IEEE-754 double `std::f64::consts::TAU`
(2π rounded to the nearest double), i.e. 884279719003555 · 2⁻⁴⁷. -/
def TAU : ℚ := 884279719003555 / 140737488355328

/-- src/pos/lmn.rs lines 23–30: direction cosines (f64 fields modelled in ℚ). -/
structure LMN where
  l : ℚ
  m : ℚ
  n : ℚ
deriving DecidableEq, Repr

/-- src/pos/lmn.rs lines 96–103. -/
structure LmnRime where
  l : ℚ
  m : ℚ
  n : ℚ
deriving DecidableEq, Repr

/-- src/pos/lmn.rs lines 43–49 (`LMN::prepare_for_rime`). -/
def LMN.prepare_for_rime (x : LMN) : LmnRime :=
  { l := TAU * x.l
    m := TAU * x.m
    n := TAU * (x.n - 1) }

/-- src/pos/lmn.rs lines 113–119 (`LmnRime::to_lmn`). -/
def LmnRime.to_lmn (x : LmnRime) : LMN :=
  { l := x.l / TAU
    m := x.m / TAU
    n := x.n / TAU + 1 }

/-! ## An IEEE-754-style scalar for the Jones-inverse NaN claim

`F` models an f64 value as a finite exact rational, a signed infinity, or NaN.
Idealizations (harmless for the claims proved here, which only exercise exact
zeros and NaN propagation): finite arithmetic is exact (no rounding/overflow)
and there is a single zero (no −0.0). NaN propagation, ∞−∞, 0·∞, 0/0 and ∞/∞
follow IEEE 754. -/
inductive F where
  | fin : ℚ → F
  | pinf : F
  | minf : F
  | nan : F
deriving DecidableEq, Repr

def F.neg : F → F
  | .fin q => .fin (-q)
  | .pinf => .minf
  | .minf => .pinf
  | .nan => .nan

def F.add : F → F → F
  | .nan, _ => .nan
  | _, .nan => .nan
  | .pinf, .minf => .nan
  | .minf, .pinf => .nan
  | .pinf, _ => .pinf
  | _, .pinf => .pinf
  | .minf, _ => .minf
  | _, .minf => .minf
  | .fin a, .fin b => .fin (a + b)

def F.sub (a b : F) : F := a.add b.neg

def F.mul : F → F → F
  | .nan, _ => .nan
  | _, .nan => .nan
  | .fin a, .fin b => .fin (a * b)
  | .pinf, .fin b => if b = 0 then .nan else if 0 < b then .pinf else .minf
  | .minf, .fin b => if b = 0 then .nan else if 0 < b then .minf else .pinf
  | .fin a, .pinf => if a = 0 then .nan else if 0 < a then .pinf else .minf
  | .fin a, .minf => if a = 0 then .nan else if 0 < a then .minf else .pinf
  | .pinf, .pinf => .pinf
  | .pinf, .minf => .minf
  | .minf, .pinf => .minf
  | .minf, .minf => .pinf

def F.div : F → F → F
  | .nan, _ => .nan
  | _, .nan => .nan
  | .fin a, .fin b =>
      if b = 0 then (if a = 0 then .nan else if 0 < a then .pinf else .minf)
      else .fin (a / b)
  | .pinf, .fin b => if 0 ≤ b then .pinf else .minf
  | .minf, .fin b => if 0 ≤ b then .minf else .pinf
  | .fin _, .pinf => .fin 0
  | .fin _, .minf => .fin 0
  | .pinf, .pinf => .nan
  | .pinf, .minf => .nan
  | .minf, .pinf => .nan
  | .minf, .minf => .nan

def F.is_nan : F → Bool
  | .nan => true
  | _ => false

/-- `num_complex::Complex<F>` as used by src/jones.rs, over the scalar `F`. -/
structure CF where
  re : F
  im : F
deriving DecidableEq, Repr

/-- `Complex` multiplication (num_complex):
`(a.re*b.re − a.im*b.im) + (a.re*b.im + a.im*b.re)·i`. -/
def CF.mul (a b : CF) : CF :=
  ⟨(a.re.mul b.re).sub (a.im.mul b.im), (a.re.mul b.im).add (a.im.mul b.re)⟩

def CF.sub (a b : CF) : CF := ⟨a.re.sub b.re, a.im.sub b.im⟩

def CF.neg (a : CF) : CF := ⟨a.re.neg, a.im.neg⟩

/-- `Complex::norm_sqr` (num_complex): `re*re + im*im`. -/
def CF.norm_sqr (a : CF) : F := (a.re.mul a.re).add (a.im.mul a.im)

/-- `Complex` division (num_complex): with `n = b.norm_sqr()`,
`re = (a.re*b.re + a.im*b.im)/n`, `im = (a.im*b.re − a.re*b.im)/n`. -/
def CF.div (a b : CF) : CF :=
  let n := b.norm_sqr
  ⟨((a.re.mul b.re).add (a.im.mul b.im)).div n,
   ((a.im.mul b.re).sub (a.re.mul b.im)).div n⟩

/-- `Complex::is_nan` (num_complex): `re.is_nan() || im.is_nan()`. -/
def CF.is_nan (a : CF) : Bool := a.re.is_nan || a.im.is_nan

/-- src/jones.rs line 21: `Jones<F>` is `[Complex<F>; 4]`; field `jk` is the
array entry `self[k]` (MWA polarization order XX, XY, YX, YY). -/
structure JonesF where
  j0 : CF
  j1 : CF
  j2 : CF
  j3 : CF
deriving DecidableEq, Repr

/-- src/jones.rs lines 38–45 (`Jones::nan`). -/
def JonesF.nanJ : JonesF :=
  ⟨⟨F.nan, F.nan⟩, ⟨F.nan, F.nan⟩, ⟨F.nan, F.nan⟩, ⟨F.nan, F.nan⟩⟩

/-- src/jones.rs lines 70–78 (`Jones::inv`):
`inv_det = (1 + 0i) / (self[0]*self[3] − self[1]*self[2])`, result
`[inv_det*self[3], −inv_det*self[1], −inv_det*self[2], inv_det*self[0]]`. -/
def JonesF.inv (a : JonesF) : JonesF :=
  let inv_det := CF.div ⟨F.fin 1, F.fin 0⟩ ((a.j0.mul a.j3).sub (a.j1.mul a.j2))
  ⟨inv_det.mul a.j3, inv_det.neg.mul a.j1, inv_det.neg.mul a.j2, inv_det.mul a.j0⟩

/-- src/jones.rs lines 121–127 (`Jones::any_nan`):
`self.iter().any(|f| f.is_nan())` over the four complex entries. -/
def JonesF.any_nan (a : JonesF) : Bool :=
  a.j0.is_nan || a.j1.is_nan || a.j2.is_nan || a.j3.is_nan

/-! ## Exact-rational Jones values for the data-movement claims -/

/-- `Complex<f32>` payload modelled exactly in ℚ (claims C3, C5, C7 only move
these values; no rounding behaviour is involved). -/
structure CQ where
  re : ℚ
  im : ℚ
deriving DecidableEq, Repr

/-- `Jones<f32>` payload; field `jk` is array entry `self[k]`
(MWA polarization order XX, XY, YX, YY). -/
structure JonesQ where
  j0 : CQ
  j1 : CQ
  j2 : CQ
  j3 : CQ
deriving DecidableEq, Repr

/-- `Jones::zero()` (src/jones.rs lines 462–466). -/
def JonesQ.zero : JonesQ := ⟨⟨0, 0⟩, ⟨0, 0⟩, ⟨0, 0⟩, ⟨0, 0⟩⟩

/-- `Jones::from([f; 8])` (src/jones.rs lines 170–180): consecutive
(re, im) pairs. -/
def JonesQ.from8 (q0 q1 q2 q3 q4 q5 q6 q7 : ℚ) : JonesQ :=
  ⟨⟨q0, q1⟩, ⟨q2, q3⟩, ⟨q4, q5⟩, ⟨q6, q7⟩⟩

/-! ## Allocation — src/selection.rs lines 237–305 -/

/-- `SelectionError` (src/selection.rs lines 72–111). The string payloads of
`NoCommonTimesteps`/`NoProvidedTimesteps`/`BadArrayShape` (formatted debug
info in the source) are carried as the underlying data. -/
inductive SelectionError where
  | NoCommonTimesteps
  | NoProvidedTimesteps
  | InsufficientMemory (need_gib : Nat)
  | BadArrayShape (expected received : Nat × Nat × Nat)
deriving DecidableEq, Repr

/-- `ndarray::Array3` modelled by its shape plus row-major data
(`Array3::from_shape_vec(shape, v)`). -/
structure Array3 (α : Type) where
  dim : Nat × Nat × Nat
  data : List α
deriving DecidableEq, Repr

/-- src/selection.rs lines 237–255 (`VisSelection::allocate_jones`).
`reserve_ok` is the outcome of the external allocator call
`v.try_reserve_exact(num_elems) == Ok(())`; on success the vector is resized
to `num_elems` copies of `Jones::zero()` and shaped by `from_shape_vec`. -/
def VisSelection.allocate_jones (s : VisSelection) (fine_chans_per_coarse : Nat)
    (reserve_ok : Bool) : Except SelectionError (Array3 JonesQ) :=
  let shape := s.get_shape fine_chans_per_coarse
  let num_elems := shape.1 * shape.2.1 * shape.2.2
  if reserve_ok then
    .ok ⟨shape, List.replicate num_elems JonesQ.zero⟩
  else
    .error (.InsufficientMemory (s.estimate_bytes_best fine_chans_per_coarse / 1024 ^ 3))

/-- src/selection.rs lines 262–280 (`VisSelection::allocate_flags`);
fill value `false`. -/
def VisSelection.allocate_flags (s : VisSelection) (fine_chans_per_coarse : Nat)
    (reserve_ok : Bool) : Except SelectionError (Array3 Bool) :=
  let shape := s.get_shape fine_chans_per_coarse
  let num_elems := shape.1 * shape.2.1 * shape.2.2
  if reserve_ok then
    .ok ⟨shape, List.replicate num_elems false⟩
  else
    .error (.InsufficientMemory (s.estimate_bytes_best fine_chans_per_coarse / 1024 ^ 3))

/-- src/selection.rs lines 287–305 (`VisSelection::allocate_weights`);
fill value `0.0`. -/
def VisSelection.allocate_weights (s : VisSelection) (fine_chans_per_coarse : Nat)
    (reserve_ok : Bool) : Except SelectionError (Array3 ℚ) :=
  let shape := s.get_shape fine_chans_per_coarse
  let num_elems := shape.1 * shape.2.1 * shape.2.2
  if reserve_ok then
    .ok ⟨shape, List.replicate num_elems 0⟩
  else
    .error (.InsufficientMemory (s.estimate_bytes_best fine_chans_per_coarse / 1024 ^ 3))

/-! ## UvfitsWriter — src/io/uvfits.rs lines 97–125, 756–798, 462–472 -/

/-- Modelled from the spec: the speed-of-light constant `VEL_C`
(src/constants.rs is not among the provided sources; §4.4 of the spec mandates
"converts UVW from meters to light-travel-time seconds (divide by the speed of
light)"). Value: the SI speed of light in m/s, exactly representable in f64. -/
def VEL_C : ℚ := 299792458

/-- A `UVW` baseline vector in meters (f64 fields modelled in ℚ). -/
structure UVWq where
  u : ℚ
  v : ℚ
  w : ℚ
deriving DecidableEq, Repr

/-- `UvfitsWriteError` (src/io/error.rs, as used by src/io/uvfits.rs).
`Fits` stands for any underlying cfitsio/fitsio failure propagated through
`fits_check_status` / the `?` operator. -/
inductive UvfitsWriteError where
  | BadRowNum (row_num num_rows : Nat)
  | NotEnoughRowsWritten (current total : Nat)
  | Fits
deriving DecidableEq, Repr

/-- src/io/uvfits.rs lines 97–125 (`UvfitsWriter`). Fields consumed only by
unmodelled FITS header I/O (`path`, `centre_freq`, `phase_centre`,
`array_pos`) are omitted; `start_epoch` is carried as the value of
`start_epoch.as_jde_utc_days()` (the only way the modelled operations
consume it). -/
structure UvfitsWriter where
  total_num_rows : Nat
  current_num_rows : Nat
  start_epoch_jde_utc : ℚ
deriving DecidableEq, Repr

/-- src/io/uvfits.rs lines 756–798 (`UvfitsWriter::write_vis_row`).

`f32` is an arbitrary model of the `as f32` narrowing cast; `ffpgpe_ok` is
the outcome of the external `fitsio_sys::ffpgpe` group write. Returns the
writer after the call (the mutation of `&mut self`) together with the
result: on success, the row vector handed to `ffpgpe`
(`[u/c, v/c, w/c, baseline, jd_frac] ++ vis`); on failure, the error.
`current_num_rows` is incremented only after both the row-capacity check and
the FITS write succeed. -/
def UvfitsWriter.write_vis_row (f32 : ℚ → ℚ) (w : UvfitsWriter) (uvw : UVWq)
    (tile_index1 tile_index2 : Nat) (epoch_jde_utc : ℚ) (vis : List ℚ)
    (ffpgpe_ok : Bool) : UvfitsWriter × Except UvfitsWriteError (List ℚ) :=
  if w.current_num_rows + 1 > w.total_num_rows then
    (w, .error (.BadRowNum w.current_num_rows w.total_num_rows))
  else
    let jd_trunc : ℚ := ↑⌊w.start_epoch_jde_utc⌋ + 1 / 2
    let jd_frac : ℚ := epoch_jde_utc - jd_trunc
    let row : List ℚ :=
      f32 (uvw.u / VEL_C) :: f32 (uvw.v / VEL_C) :: f32 (uvw.w / VEL_C) ::
        f32 (encode_uvfits_baseline (tile_index1 + 1) (tile_index2 + 1) : ℚ) ::
        f32 jd_frac :: vis
    if ffpgpe_ok then
      ({ w with current_num_rows := w.current_num_rows + 1 }, .ok row)
    else
      (w, .error .Fits)

/-- src/io/uvfits.rs lines 462–706 (`UvfitsWriter::write_uvfits_antenna_table`),
reduced to its control flow: the row-count check at lines 467–472, then a
sequence of external FITS operations whose combined outcome is `fits_ok`
(the table contents are pure FITS I/O not consumed by any claim). -/
def UvfitsWriter.write_uvfits_antenna_table (w : UvfitsWriter) (fits_ok : Bool) :
    Except UvfitsWriteError Unit :=
  if w.current_num_rows ≠ w.total_num_rows then
    .error (.NotEnoughRowsWritten w.current_num_rows w.total_num_rows)
  else if fits_ok then .ok () else .error .Fits

/-- The arguments of one `write_vis_row` call. -/
structure RowInput where
  uvw : UVWq
  tile_index1 : Nat
  tile_index2 : Nat
  epoch_jde_utc : ℚ
  vis : List ℚ
  ffpgpe_ok : Bool

/-- A sequence of `write_vis_row` calls, threading the writer state and
collecting each call's result. -/
def UvfitsWriter.write_vis_rows (f32 : ℚ → ℚ) (w : UvfitsWriter) :
    List RowInput → UvfitsWriter × List (Except UvfitsWriteError (List ℚ))
  | [] => (w, [])
  | r :: rs =>
    let step := w.write_vis_row f32 r.uvw r.tile_index1 r.tile_index2
      r.epoch_jde_utc r.vis r.ffpgpe_ok
    let rest := step.1.write_vis_rows f32 rs
    (rest.1, step.2 :: rest.2)

/-! ## write_vis_marlu row-buffer construction — src/io/uvfits.rs lines 934–997 -/

/-- `ndarray`'s `axis_chunks_iter(Axis(1), n)` on a 2-D array stored as a
list of rows (row = one raw timestep, entries = raw channels): successive
column slabs of width `n`, the last possibly narrower, until the columns of
the (rectangular) array are exhausted. Returns `[]` for `n = 0`, a case that
never arises below. -/
def colChunks (n : Nat) (m : List (List α)) : List (List (List α)) :=
  if h : n = 0 ∨ (m.headD []).length = 0 then []
  else
    m.map (List.take n) :: colChunks n (m.map (List.drop n))
termination_by (m.headD []).length
decreasing_by
  simp only [not_or] at h
  obtain ⟨hn, hne⟩ := h
  cases m with
  | nil => simp at hne
  | cons r rest =>
    simp only [List.map_cons, List.headD_cons, List.length_drop] at *
    omega

/-- Modelled from the spec: `VisContext::trivial_averaging` (`VisContext`
lives in src/lib.rs, which is not among the provided sources); per §4.4 of
the spec the no-op case is "if the averaging factors are both 1". -/
def trivial_averaging (avg_time avg_freq : Nat) : Bool :=
  avg_time == 1 && avg_freq == 1

/-- src/io/uvfits.rs lines 963–997: construction of the `vis_tmp` row buffer
for one (averaged timestep, baseline) output row, as the list of the
12-float blocks written through `vis_tmp.chunks_exact_mut(12)` (their
concatenation is the buffer contents when the chunk count matches
`num_avg_chans`, which the shape checks guarantee).

`jones`/`weights` are the 2-D (raw-timestep × raw-channel) chunks for this
baseline (`avg_time` rows). Per averaged channel (column slab of width
`avg_freq`): `avg_weight = weight_chunk[[0,0]]`, `avg_jones =
jones_chunk[[0,0]]`; when averaging is non-trivial both are replaced by the
result of `average_chunk_f64!` — a macro from src/lib.rs (not among the
provided sources) modelled by the opaque parameter `avgf` (its `avg_flag`
output is assigned but never read by the source). The twelve slots hold
(re, im, weight) triples in uvfits polarization order XX, YY, XY, YX —
source entries 0, 3, 1, 2. -/
def write_vis_marlu_vis_chunks (avg_time avg_freq : Nat)
    (avgf : List (List JonesQ) → List (List ℚ) → JonesQ × ℚ)
    (jones : List (List JonesQ)) (weights : List (List ℚ)) : List (List ℚ) :=
  (List.zip (colChunks avg_freq jones) (colChunks avg_freq weights)).map
    fun jw =>
      let avg_weight : ℚ := (jw.2.headD []).headD 0
      let avg_jones : JonesQ := (jw.1.headD []).headD JonesQ.zero
      let a : JonesQ × ℚ :=
        if trivial_averaging avg_time avg_freq then (avg_jones, avg_weight)
        else avgf jw.1 jw.2
      [a.1.j0.re, a.1.j0.im, a.2, a.1.j3.re, a.1.j3.im, a.2,
       a.1.j1.re, a.1.j1.im, a.2, a.1.j2.re, a.1.j2.im, a.2]

/-- The flat `vis_tmp` buffer contents: concatenation of the per-channel
12-float blocks. -/
def write_vis_marlu_vis_tmp (avg_time avg_freq : Nat)
    (avgf : List (List JonesQ) → List (List ℚ) → JonesQ × ℚ)
    (jones : List (List JonesQ)) (weights : List (List ℚ)) : List ℚ :=
  (write_vis_marlu_vis_chunks avg_time avg_freq avgf jones weights).flatten

/-! ## read_mwalib — src/selection.rs lines 369–529 -/

/-- `mwalib::GpuboxError` as consumed by `read_mwalib`: the recoverable
"no data for this timestep/coarse-channel" condition, and every other error
(collapsed to an opaque code). -/
inductive GpuboxError where
  | NoDataForTimeStepCoarseChannel
  | Other (code : Nat)
deriving DecidableEq, Repr

/-- The caller-provided `jones_array`/`flag_array` views, indexed
`[timestep][channel][baseline]` as total functions (the loop below only ever
touches in-shape coordinates, and the claims are stated pointwise). -/
structure ReadState where
  jones : Nat → Nat → Nat → JonesQ
  flags : Nat → Nat → Nat → Bool

/-- The chunk positions of the coarse-channel axis paired with the mwalib
coarse-channel indices: `axis_chunks_iter(Axis(1), fine_chans_per_coarse)`
zipped with `coarse_chan_range.clone()` in the source. -/
def RangeN.enumList (r : RangeN) : List (Nat × Nat) :=
  (List.range r.len).map fun p => (p, r.start + p)

/-- src/selection.rs lines 480–505 (the `Ok(())` arm): copy one HDU buffer
into the jones slab for (timestep `t`, coarse-channel position `c_pos`).
`buf` is the flat f32 HDU buffer ordered `[baseline][fine_chan][pol][complex]`
(8 floats per channel per baseline). For each selected-baseline position `b`
(mwalib baseline index `baseline_idxs[b]`) and fine channel
`f = ch − c_pos*fpc`, the Jones value at `(t, c_pos*fpc + f, b)` becomes
`Jones::from` of the 8 floats at `baseline_idx * 8*fpc + f*8`; the source's
elementwise loop is expressed as one pointwise update over the (disjoint)
slab. -/
def write_jones_block (fpc : Nat) (baseline_idxs : List Nat) (c_pos t : Nat)
    (buf : Nat → ℚ) (s : ReadState) : ReadState :=
  let jones' : Nat → Nat → Nat → JonesQ := fun t' ch b =>
    if t' = t ∧ c_pos * fpc ≤ ch ∧ ch < c_pos * fpc + fpc ∧
        b < baseline_idxs.length then
      let base := baseline_idxs.getD b 0 * (8 * fpc) + (ch - c_pos * fpc) * 8
      JonesQ.from8 (buf base) (buf (base + 1)) (buf (base + 2)) (buf (base + 3))
        (buf (base + 4)) (buf (base + 5)) (buf (base + 6)) (buf (base + 7))
    else s.jones t' ch b
  { s with jones := jones' }

/-- src/selection.rs line 512 (`flag_array.fill(true)`): set every flag in
the (timestep `t`, coarse-channel position `c_pos`) slab; `nb` is the
baseline dimension of the flag view. -/
def fill_flags_block (fpc nb : Nat) (c_pos t : Nat) (s : ReadState) : ReadState :=
  let flags' : Nat → Nat → Nat → Bool := fun t' ch b =>
    if t' = t ∧ c_pos * fpc ≤ ch ∧ ch < c_pos * fpc + fpc ∧ b < nb then true
    else s.flags t' ch b
  { s with flags := flags' }

/-- src/selection.rs lines 470–519: the timestep loop for one coarse channel.
`read t c` models `corr_ctx.read_by_baseline_into_buffer(t, c, buffer)`,
returning the filled buffer or an error. `Ok` writes the jones slab;
`NoDataForTimeStepCoarseChannel` fills the flag slab and continues
(visibilities untouched); any other error aborts the loop. -/
def read_coarse_chan (read : Nat → Nat → Except GpuboxError (Nat → ℚ))
    (fpc nb : Nat) (baseline_idxs : List Nat) (c_pos c_idx : Nat) :
    List Nat → ReadState → Except GpuboxError ReadState
  | [], s => .ok s
  | t :: ts, s =>
    match read t c_idx with
    | .ok buf =>
      read_coarse_chan read fpc nb baseline_idxs c_pos c_idx ts
        (write_jones_block fpc baseline_idxs c_pos t buf s)
    | .error .NoDataForTimeStepCoarseChannel =>
      read_coarse_chan read fpc nb baseline_idxs c_pos c_idx ts
        (fill_flags_block fpc nb c_pos t s)
    | .error e => .error e

/-- src/selection.rs lines 456–523: the coarse-channel loop (`try_for_each`
over the rayon chunks, sequentialized — the parallel chunks write disjoint
array slabs, so this is an equivalent linearization, and `try_for_each`
propagates an error from any chunk). -/
def read_chans (read : Nat → Nat → Except GpuboxError (Nat → ℚ))
    (fpc nb : Nat) (baseline_idxs : List Nat) (ts : List Nat) :
    List (Nat × Nat) → ReadState → Except GpuboxError ReadState
  | [], s => .ok s
  | pc :: cs, s =>
    match read_coarse_chan read fpc nb baseline_idxs pc.1 pc.2 ts s with
    | .ok s' => read_chans read fpc nb baseline_idxs ts cs s'
    | .error e => .error e

/-- src/selection.rs lines 369–529 (`VisSelection::read_mwalib`) after the
`BadArrayShape` precondition checks: the nested coarse-channel × timestep
read loop over the selection. -/
def VisSelection.read_mwalib_loop (sel : VisSelection) (fpc : Nat)
    (read : Nat → Nat → Except GpuboxError (Nat → ℚ)) (s : ReadState) :
    Except GpuboxError ReadState :=
  read_chans read fpc sel.baseline_idxs.length sel.baseline_idxs
    sel.timestep_range.toList sel.coarse_chan_range.enumList s

end Marlu

namespace Marlu

/-! ## Helper lemmas for the writer state machine -/

theorem write_vis_row_ok_state (f32 : ℚ → ℚ) (w : UvfitsWriter) (r : RowInput)
    (h : (w.write_vis_row f32 r.uvw r.tile_index1 r.tile_index2 r.epoch_jde_utc
      r.vis r.ffpgpe_ok).2.isOk = true) :
    (w.write_vis_row f32 r.uvw r.tile_index1 r.tile_index2 r.epoch_jde_utc
      r.vis r.ffpgpe_ok).1 =
      { w with current_num_rows := w.current_num_rows + 1 } ∧
    w.current_num_rows < w.total_num_rows ∧ r.ffpgpe_ok = true := by
  by_cases hcap : w.current_num_rows + 1 > w.total_num_rows
  · exfalso
    simp [UvfitsWriter.write_vis_row, hcap, Except.isOk, Except.toBool] at h
  · by_cases hff : r.ffpgpe_ok = true
    · refine ⟨?_, by omega, hff⟩
      simp [UvfitsWriter.write_vis_row, hcap, hff]
    · exfalso
      simp [UvfitsWriter.write_vis_row, hcap, hff, Except.isOk, Except.toBool] at h

theorem write_vis_row_error_state (f32 : ℚ → ℚ) (w : UvfitsWriter) (r : RowInput)
    (h : ¬ (w.write_vis_row f32 r.uvw r.tile_index1 r.tile_index2 r.epoch_jde_utc
      r.vis r.ffpgpe_ok).2.isOk = true) :
    (w.write_vis_row f32 r.uvw r.tile_index1 r.tile_index2 r.epoch_jde_utc
      r.vis r.ffpgpe_ok).1 = w := by
  by_cases hcap : w.current_num_rows + 1 > w.total_num_rows
  · simp [UvfitsWriter.write_vis_row, hcap]
  · by_cases hff : r.ffpgpe_ok = true
    · exfalso
      exact h (by simp [UvfitsWriter.write_vis_row, hcap, hff, Except.isOk, Except.toBool])
    · simp [UvfitsWriter.write_vis_row, hcap, hff]

theorem write_vis_rows_all_ok_state (f32 : ℚ → ℚ) (rs : List RowInput) :
    ∀ w : UvfitsWriter,
      (∀ e ∈ (w.write_vis_rows f32 rs).2, e.isOk = true) →
      (w.write_vis_rows f32 rs).1 =
        { w with current_num_rows := w.current_num_rows + rs.length } := by
  induction rs with
  | nil => intro w _; simp [UvfitsWriter.write_vis_rows]
  | cons r rs ih =>
    intro w hok
    simp only [UvfitsWriter.write_vis_rows, List.mem_cons, forall_eq_or_imp] at hok ⊢
    obtain ⟨hhd, htl⟩ := hok
    have hstep := write_vis_row_ok_state f32 w r hhd
    rw [hstep.1] at htl ⊢
    rw [ih _ htl]
    simp only [UvfitsWriter.mk.injEq, List.length_cons]
    refine ⟨by trivial, by omega, by trivial⟩

/-! ## Helper lemmas for the NaN-propagation claim -/

theorem F_mul_nan_left (x : F) : F.mul .nan x = .nan := by cases x <;> rfl

theorem F_add_nan_left (x : F) : F.add .nan x = .nan := by cases x <;> rfl

theorem F_sub_nan_left (x : F) : F.sub .nan x = .nan := by
  cases x <;> rfl

theorem CF_mul_nan_left (z : CF) : CF.mul ⟨.nan, .nan⟩ z = ⟨.nan, .nan⟩ := by
  simp [CF.mul, F_mul_nan_left, F_sub_nan_left, F_add_nan_left]

theorem CF_neg_nan : CF.neg ⟨.nan, .nan⟩ = ⟨.nan, .nan⟩ := rfl

/-! ## Theorems for claims C1, C6, C8 -/

theorem tau_ne_zero : TAU ≠ 0 := by
  unfold TAU; norm_num

end Marlu

/-- C1 counterexample: the claimed round-trip fails inside the claimed domain.
With `a1 = 256, a2 = 1` (both within 1..2048), the legacy branch of `encode`
produces `256*256 + 1 = 65537 ≥ 65535`, so `decode` takes the Miriad-extended
branch and returns `(0, 1) ≠ (256, 1)`. -/
theorem C1_counterexample :
    (1 ≤ 256 ∧ 256 ≤ 2048 ∧ 1 ≤ 1 ∧ 1 ≤ 2048) ∧
      Marlu.decode_uvfits_baseline (Marlu.encode_uvfits_baseline 256 1) = (0, 1) ∧
      Marlu.decode_uvfits_baseline (Marlu.encode_uvfits_baseline 256 1) ≠ (256, 1) := by
  refine ⟨by norm_num, ?_, ?_⟩ <;> decide

/-- C1 (amended): the round-trip `decode (encode a1 a2) = (a1, a2)` holds
exactly on the pairs where the two branch conditions are compatible: in the
legacy branch (`a2 ≤ 255`) only while the encoded id stays below the decoder's
65535 threshold (which bounds `a1` by 255, and excludes `(255, 255)` whose
encoding is exactly 65535), and in the Miriad-extended branch (`a2 > 255`)
only for `a2 ≤ 2047` (at `a2 = 2048` the decoder's `% 2048` wraps). -/
theorem C1_roundtrip_amended (a1 a2 : Nat) (h1 : 1 ≤ a1) (h2 : 1 ≤ a2)
    (hdom : (a2 ≤ 255 ∧ a1 * 256 + a2 < 65535) ∨ (256 ≤ a2 ∧ a2 ≤ 2047)) :
    Marlu.decode_uvfits_baseline (Marlu.encode_uvfits_baseline a1 a2) = (a1, a2) := by
  rcases hdom with ⟨hle, hlt⟩ | ⟨hge, hle⟩
  · have henc : Marlu.encode_uvfits_baseline a1 a2 = a1 * 256 + a2 := by
      unfold Marlu.encode_uvfits_baseline
      rw [if_neg (by omega)]
    rw [henc]
    unfold Marlu.decode_uvfits_baseline
    rw [if_pos hlt]
    have hm : (a1 * 256 + a2) % 256 = a2 := by omega
    simp only [hm]
    have : (a1 * 256 + a2 - a2) / 256 = a1 := by omega
    rw [this]
  · have henc : Marlu.encode_uvfits_baseline a1 a2 = a1 * 2048 + a2 + 65536 := by
      unfold Marlu.encode_uvfits_baseline
      rw [if_pos (by omega)]
    rw [henc]
    unfold Marlu.decode_uvfits_baseline
    rw [if_neg (by omega)]
    have hm : (a1 * 2048 + a2 + 65536 - 65536) % 2048 = a2 := by omega
    simp only [hm]
    have : (a1 * 2048 + a2 + 65536 - a2 - 65536) / 2048 = a1 := by omega
    rw [this]

/-- Witness for `C1_roundtrip_amended` at the concrete in-domain pair
`(a1, a2) = (100, 300)` (Miriad-extended branch). -/
theorem C1_roundtrip_amended_witness :
    (1 ≤ 100 ∧ 1 ≤ 300 ∧ (256 ≤ 300 ∧ 300 ≤ 2047)) ∧
      Marlu.decode_uvfits_baseline (Marlu.encode_uvfits_baseline 100 300) = (100, 300) :=
  ⟨by norm_num, C1_roundtrip_amended 100 300 (by norm_num) (by norm_num)
    (Or.inr ⟨by norm_num, by norm_num⟩)⟩

/-- C6: `get_shape` returns
`(timestep_range.len, coarse_chan_range.len * fine_chans_per_coarse,
baseline_idxs.length)`; it is a pure function of the selection, so a change
touching only `timestep_range` leaves the channel and baseline components
unchanged, and a change touching only `baseline_idxs` leaves the timestep and
channel components unchanged. -/
theorem C6_get_shape (s t : Marlu.VisSelection) (fpc : Nat) :
    s.get_shape fpc =
      (s.timestep_range.len, s.coarse_chan_range.len * fpc, s.baseline_idxs.length) ∧
    (t.coarse_chan_range = s.coarse_chan_range → t.baseline_idxs = s.baseline_idxs →
      (t.get_shape fpc).2.1 = (s.get_shape fpc).2.1 ∧
      (t.get_shape fpc).2.2 = (s.get_shape fpc).2.2) ∧
    (t.timestep_range = s.timestep_range → t.coarse_chan_range = s.coarse_chan_range →
      (t.get_shape fpc).1 = (s.get_shape fpc).1 ∧
      (t.get_shape fpc).2.1 = (s.get_shape fpc).2.1) := by
  refine ⟨rfl, ?_, ?_⟩
  · intro hc hb
    simp [Marlu.VisSelection.get_shape, hc, hb]
  · intro ht hc
    simp [Marlu.VisSelection.get_shape, ht, hc]

/-- C8: converting an `LMN` to its RIME form and back is the identity: the
components are multiplied by 2π (and `n` shifted by −1) and then divided by 2π
(and `n` shifted back by +1), which cancels exactly in the real-arithmetic
model of the f64 computation. -/
theorem C8_lmn_rime_roundtrip (x : Marlu.LMN) : x.prepare_for_rime.to_lmn = x := by
  unfold Marlu.LMN.prepare_for_rime Marlu.LmnRime.to_lmn
  have h := Marlu.tau_ne_zero
  cases x with
  | mk l m n =>
    simp only [Marlu.LMN.mk.injEq]
    refine ⟨?_, ?_, ?_⟩ <;> field_simp

/-- C7: for each of `allocate_jones`, `allocate_flags`, `allocate_weights`,
a failed exact-capacity reservation yields `InsufficientMemory` (a returned
error, not a panic — the Lean model is a total function) whose `need_gib`
is `estimate_bytes_best / 1024³`; `estimate_bytes_best` is
`shape.0 * shape.1 * shape.2 * (size_of Jones<f32> + size_of f32 + size_of
bool)`; and a successful reservation returns an array whose dimensions are
exactly the selection's shape. -/
theorem C7_allocate (s : Marlu.VisSelection) (fpc : Nat) :
    (s.allocate_jones fpc false =
        .error (.InsufficientMemory (s.estimate_bytes_best fpc / 1024 ^ 3)) ∧
     s.allocate_flags fpc false =
        .error (.InsufficientMemory (s.estimate_bytes_best fpc / 1024 ^ 3)) ∧
     s.allocate_weights fpc false =
        .error (.InsufficientMemory (s.estimate_bytes_best fpc / 1024 ^ 3))) ∧
    s.estimate_bytes_best fpc =
      (s.get_shape fpc).1 * (s.get_shape fpc).2.1 * (s.get_shape fpc).2.2 *
        (Marlu.size_of_jones_f32 + Marlu.size_of_f32 + Marlu.size_of_bool) ∧
    ((s.allocate_jones fpc true).map Marlu.Array3.dim = .ok (s.get_shape fpc) ∧
     (s.allocate_flags fpc true).map Marlu.Array3.dim = .ok (s.get_shape fpc) ∧
     (s.allocate_weights fpc true).map Marlu.Array3.dim = .ok (s.get_shape fpc)) := by
  refine ⟨⟨rfl, rfl, rfl⟩, rfl, rfl, rfl, rfl⟩

/-- C9: if the determinant `self[0]*self[3] − self[1]*self[2]` of a Jones
matrix evaluates to (complex) zero, `inv` divides `1 + 0i` by that zero —
giving a NaN/NaN complex value under IEEE semantics (0/0 in both components) —
and every entry of the result is NaN, so `any_nan` reports `true`.
`inv` is a total function: it never returns an error (and the Rust float
arithmetic it models cannot panic). -/
theorem C9_inv_singular_nan (a : Marlu.JonesF)
    (h : (a.j0.mul a.j3).sub (a.j1.mul a.j2) = ⟨Marlu.F.fin 0, Marlu.F.fin 0⟩) :
    a.inv = Marlu.JonesF.nanJ ∧ a.inv.any_nan = true := by
  have hdiv : Marlu.CF.div ⟨Marlu.F.fin 1, Marlu.F.fin 0⟩ ⟨Marlu.F.fin 0, Marlu.F.fin 0⟩ =
      ⟨Marlu.F.nan, Marlu.F.nan⟩ := by
    norm_num [Marlu.CF.div, Marlu.CF.norm_sqr, Marlu.F.mul, Marlu.F.add, Marlu.F.sub,
      Marlu.F.neg, Marlu.F.div]
  have hinv : a.inv = Marlu.JonesF.nanJ := by
    unfold Marlu.JonesF.inv
    rw [h, hdiv]
    simp only [Marlu.CF_neg_nan, Marlu.CF_mul_nan_left]
    rfl
  exact ⟨hinv, by rw [hinv]; rfl⟩

/-- Witness for `C9_inv_singular_nan` at the concrete singular matrix
`[[1, 2], [2, 4]]` (all-real entries, determinant 1·4 − 2·2 = 0). -/
theorem C9_inv_singular_nan_witness :
    ((Marlu.JonesF.mk ⟨.fin 1, .fin 0⟩ ⟨.fin 2, .fin 0⟩ ⟨.fin 2, .fin 0⟩
        ⟨.fin 4, .fin 0⟩).j0.mul
          (Marlu.JonesF.mk ⟨.fin 1, .fin 0⟩ ⟨.fin 2, .fin 0⟩ ⟨.fin 2, .fin 0⟩
            ⟨.fin 4, .fin 0⟩).j3).sub
        ((Marlu.JonesF.mk ⟨.fin 1, .fin 0⟩ ⟨.fin 2, .fin 0⟩ ⟨.fin 2, .fin 0⟩
            ⟨.fin 4, .fin 0⟩).j1.mul
          (Marlu.JonesF.mk ⟨.fin 1, .fin 0⟩ ⟨.fin 2, .fin 0⟩ ⟨.fin 2, .fin 0⟩
            ⟨.fin 4, .fin 0⟩).j2) = ⟨Marlu.F.fin 0, Marlu.F.fin 0⟩ ∧
      (Marlu.JonesF.mk ⟨.fin 1, .fin 0⟩ ⟨.fin 2, .fin 0⟩ ⟨.fin 2, .fin 0⟩
        ⟨.fin 4, .fin 0⟩).inv = Marlu.JonesF.nanJ ∧
      (Marlu.JonesF.mk ⟨.fin 1, .fin 0⟩ ⟨.fin 2, .fin 0⟩ ⟨.fin 2, .fin 0⟩
        ⟨.fin 4, .fin 0⟩).inv.any_nan = true := by
  have hdet : ((Marlu.JonesF.mk ⟨.fin 1, .fin 0⟩ ⟨.fin 2, .fin 0⟩ ⟨.fin 2, .fin 0⟩
        ⟨.fin 4, .fin 0⟩).j0.mul
          (Marlu.JonesF.mk ⟨.fin 1, .fin 0⟩ ⟨.fin 2, .fin 0⟩ ⟨.fin 2, .fin 0⟩
            ⟨.fin 4, .fin 0⟩).j3).sub
        ((Marlu.JonesF.mk ⟨.fin 1, .fin 0⟩ ⟨.fin 2, .fin 0⟩ ⟨.fin 2, .fin 0⟩
            ⟨.fin 4, .fin 0⟩).j1.mul
          (Marlu.JonesF.mk ⟨.fin 1, .fin 0⟩ ⟨.fin 2, .fin 0⟩ ⟨.fin 2, .fin 0⟩
            ⟨.fin 4, .fin 0⟩).j2) = ⟨Marlu.F.fin 0, Marlu.F.fin 0⟩ := by
    norm_num [Marlu.CF.mul, Marlu.CF.sub, Marlu.F.mul, Marlu.F.add, Marlu.F.sub,
      Marlu.F.neg]
  exact ⟨hdet, C9_inv_singular_nan _ hdet⟩

/-- C2: starting from a fresh writer (zero rows written), after a sequence of
`write_vis_row` calls that all succeed: if exactly `total_num_rows` calls were
made, `write_uvfits_antenna_table` passes its row-count check (and succeeds
when the subsequent FITS operations do); if fewer were made, it fails with
`NotEnoughRowsWritten` carrying `current` = the number of rows written and
`total` = `total_num_rows` regardless of the FITS outcome; and any
`write_vis_row` call made when `current_num_rows` already equals
`total_num_rows` fails with `BadRowNum`. -/
theorem C2_row_count_state_machine (f32 : ℚ → ℚ) (w : Marlu.UvfitsWriter)
    (rs : List Marlu.RowInput) (fits : Bool)
    (h0 : w.current_num_rows = 0)
    (hok : ∀ e ∈ (w.write_vis_rows f32 rs).2, e.isOk = true) :
    (rs.length = w.total_num_rows →
      (w.write_vis_rows f32 rs).1.write_uvfits_antenna_table true = .ok ()) ∧
    (rs.length < w.total_num_rows →
      (w.write_vis_rows f32 rs).1.write_uvfits_antenna_table fits =
        .error (.NotEnoughRowsWritten rs.length w.total_num_rows)) ∧
    (∀ (v : Marlu.UvfitsWriter) (r : Marlu.RowInput),
      v.current_num_rows = v.total_num_rows →
      (v.write_vis_row f32 r.uvw r.tile_index1 r.tile_index2 r.epoch_jde_utc
        r.vis r.ffpgpe_ok).2 =
        .error (.BadRowNum v.total_num_rows v.total_num_rows)) := by
  have hfin := Marlu.write_vis_rows_all_ok_state f32 rs w hok
  refine ⟨?_, ?_, ?_⟩
  · intro hlen
    rw [hfin]
    simp [Marlu.UvfitsWriter.write_uvfits_antenna_table, h0, hlen]
  · intro hlen
    rw [hfin]
    have hne : rs.length ≠ w.total_num_rows := by omega
    simp [Marlu.UvfitsWriter.write_uvfits_antenna_table, h0, hne]
  · intro v r hv
    have hcond : v.current_num_rows + 1 > v.total_num_rows := by omega
    simp [Marlu.UvfitsWriter.write_vis_row, hcond, hv]

/-- Witness for `C2_row_count_state_machine`: a writer created for 2 rows,
given 2 successful row writes, then a passing antenna-table call. -/
theorem C2_row_count_state_machine_witness :
    (Marlu.UvfitsWriter.mk 2 0 0).current_num_rows = 0 ∧
    (∀ e ∈ ((Marlu.UvfitsWriter.mk 2 0 0).write_vis_rows id
        [⟨⟨0, 0, 0⟩, 0, 1, 0, [], true⟩, ⟨⟨0, 0, 0⟩, 0, 1, 0, [], true⟩]).2,
      e.isOk = true) ∧
    ((Marlu.UvfitsWriter.mk 2 0 0).write_vis_rows id
        [⟨⟨0, 0, 0⟩, 0, 1, 0, [], true⟩,
         ⟨⟨0, 0, 0⟩, 0, 1, 0, [], true⟩]).1.write_uvfits_antenna_table true =
      .ok () := by
  have hok : ∀ e ∈ ((Marlu.UvfitsWriter.mk 2 0 0).write_vis_rows id
      [⟨⟨0, 0, 0⟩, 0, 1, 0, [], true⟩, ⟨⟨0, 0, 0⟩, 0, 1, 0, [], true⟩]).2,
      e.isOk = true := by
    norm_num [Marlu.UvfitsWriter.write_vis_rows, Marlu.UvfitsWriter.write_vis_row,
      Except.isOk, Except.toBool]
  exact ⟨rfl, hok,
    (C2_row_count_state_machine id (Marlu.UvfitsWriter.mk 2 0 0)
      [⟨⟨0, 0, 0⟩, 0, 1, 0, [], true⟩, ⟨⟨0, 0, 0⟩, 0, 1, 0, [], true⟩] true
      rfl hok).1 rfl⟩

/-- C4: any successful `write_vis_row` call writes, as the row group, the five
group parameters `u/c`, `v/c`, `w/c` (`c` the speed of light),
`encode_uvfits_baseline(tile_index1+1, tile_index2+1)` (zero-indexed antennas
made one-indexed), and `epoch_jde_utc − (⌊start_epoch_jde_utc⌋ + 0.5)`, each
through the `as f32` cast, followed by the `vis` buffer values unchanged. -/
theorem C4_row_group_params (f32 : ℚ → ℚ) (w : Marlu.UvfitsWriter)
    (uvw : Marlu.UVWq) (t1 t2 : Nat) (ep : ℚ) (vis : List ℚ) (ok : Bool)
    (res : List ℚ)
    (h : (w.write_vis_row f32 uvw t1 t2 ep vis ok).2 = .ok res) :
    res = f32 (uvw.u / Marlu.VEL_C) :: f32 (uvw.v / Marlu.VEL_C) ::
      f32 (uvw.w / Marlu.VEL_C) ::
      f32 (Marlu.encode_uvfits_baseline (t1 + 1) (t2 + 1) : ℚ) ::
      f32 (ep - (↑⌊w.start_epoch_jde_utc⌋ + 1 / 2)) :: vis := by
  by_cases hcap : w.current_num_rows + 1 > w.total_num_rows
  · simp [Marlu.UvfitsWriter.write_vis_row, hcap] at h
  · by_cases hff : ok = true
    · simp only [Marlu.UvfitsWriter.write_vis_row, if_neg hcap, if_pos hff] at h
      exact (Except.ok.inj h).symm
    · simp [Marlu.UvfitsWriter.write_vis_row, hcap, hff] at h

/-- Witness for `C4_row_group_params`: a concrete successful row write; with
`u = c` the first parameter is 1, the baseline id for zero-indexed antennas
(0, 1) is `encode(1, 2) = 258`, and the date offset for `epoch = 1` over a
start epoch of 0 is `1 − 0.5 = 0.5`. -/
theorem C4_row_group_params_witness :
    ((Marlu.UvfitsWriter.mk 1 0 0).write_vis_row id ⟨299792458, 0, 0⟩ 0 1 1 [7]
        true).2 = .ok [1, 0, 0, 258, 1 / 2, 7] ∧
    ([1, 0, 0, 258, 1 / 2, 7] : List ℚ) =
      id ((299792458 : ℚ) / Marlu.VEL_C) :: id ((0 : ℚ) / Marlu.VEL_C) ::
      id ((0 : ℚ) / Marlu.VEL_C) ::
      id (Marlu.encode_uvfits_baseline (0 + 1) (1 + 1) : ℚ) ::
      id ((1 : ℚ) - (↑⌊(Marlu.UvfitsWriter.mk 1 0 0).start_epoch_jde_utc⌋ + 1 / 2)) ::
      [7] := by
  have h : ((Marlu.UvfitsWriter.mk 1 0 0).write_vis_row id ⟨299792458, 0, 0⟩ 0 1 1
      [7] true).2 = .ok [1, 0, 0, 258, 1 / 2, 7] := by
    norm_num [Marlu.UvfitsWriter.write_vis_row, Marlu.encode_uvfits_baseline,
      Marlu.VEL_C]
  exact ⟨h, C4_row_group_params id (Marlu.UvfitsWriter.mk 1 0 0) ⟨299792458, 0, 0⟩
    0 1 1 [7] true [1, 0, 0, 258, 1 / 2, 7] h⟩

/-- C10: `write_vis_row` preserves the writer invariant
`current_num_rows ≤ total_num_rows` (the lower bound 0 holds by the ℕ type of
the counter): on success it increments `current_num_rows` by exactly one, and
success requires both the row-capacity check (`current < total`) and the FITS
group write to succeed; on any error (`BadRowNum` or a FITS failure) the
writer state is unchanged. -/
theorem C10_writer_invariant (f32 : ℚ → ℚ) (w : Marlu.UvfitsWriter)
    (uvw : Marlu.UVWq) (t1 t2 : Nat) (ep : ℚ) (vis : List ℚ) (ok : Bool) :
    ((w.write_vis_row f32 uvw t1 t2 ep vis ok).2.isOk = true →
      (w.write_vis_row f32 uvw t1 t2 ep vis ok).1.current_num_rows =
        w.current_num_rows + 1 ∧
      (w.write_vis_row f32 uvw t1 t2 ep vis ok).1.total_num_rows =
        w.total_num_rows ∧
      w.current_num_rows < w.total_num_rows ∧ ok = true) ∧
    ((w.write_vis_row f32 uvw t1 t2 ep vis ok).2.isOk = false →
      (w.write_vis_row f32 uvw t1 t2 ep vis ok).1 = w) ∧
    (w.current_num_rows ≤ w.total_num_rows →
      (w.write_vis_row f32 uvw t1 t2 ep vis ok).1.current_num_rows ≤
        (w.write_vis_row f32 uvw t1 t2 ep vis ok).1.total_num_rows) := by
  refine ⟨?_, ?_, ?_⟩
  · intro h
    have hstep := Marlu.write_vis_row_ok_state f32 w ⟨uvw, t1, t2, ep, vis, ok⟩ h
    exact ⟨by rw [hstep.1], by rw [hstep.1], hstep.2.1, hstep.2.2⟩
  · intro h
    exact Marlu.write_vis_row_error_state f32 w ⟨uvw, t1, t2, ep, vis, ok⟩
      (by rw [h]; simp)
  · intro hle
    by_cases hok2 : (w.write_vis_row f32 uvw t1 t2 ep vis ok).2.isOk = true
    · have hstep := Marlu.write_vis_row_ok_state f32 w ⟨uvw, t1, t2, ep, vis, ok⟩ hok2
      rw [hstep.1]
      have hlt := hstep.2.1
      show w.current_num_rows + 1 ≤ w.total_num_rows
      omega
    · rw [Marlu.write_vis_row_error_state f32 w ⟨uvw, t1, t2, ep, vis, ok⟩ hok2]
      exact hle

/-- Witness for `C10_writer_invariant`: a concrete successful row write from a
writer with capacity 1 increments the row counter from 0 to 1 and keeps the
invariant. -/
theorem C10_writer_invariant_witness :
    ((Marlu.UvfitsWriter.mk 1 0 0).write_vis_row id ⟨0, 0, 0⟩ 0 1 0 []
        true).2.isOk = true ∧
    ((Marlu.UvfitsWriter.mk 1 0 0).write_vis_row id ⟨0, 0, 0⟩ 0 1 0 []
        true).1.current_num_rows =
      (Marlu.UvfitsWriter.mk 1 0 0).current_num_rows + 1 ∧
    ((Marlu.UvfitsWriter.mk 1 0 0).current_num_rows ≤
        (Marlu.UvfitsWriter.mk 1 0 0).total_num_rows ∧
      ((Marlu.UvfitsWriter.mk 1 0 0).write_vis_row id ⟨0, 0, 0⟩ 0 1 0 []
          true).1.current_num_rows ≤
        ((Marlu.UvfitsWriter.mk 1 0 0).write_vis_row id ⟨0, 0, 0⟩ 0 1 0 []
          true).1.total_num_rows) := by
  have hok : ((Marlu.UvfitsWriter.mk 1 0 0).write_vis_row id ⟨0, 0, 0⟩ 0 1 0 []
      true).2.isOk = true := by
    norm_num [Marlu.UvfitsWriter.write_vis_row, Except.isOk, Except.toBool]
  refine ⟨hok, ?_, ?_⟩
  · exact ((C10_writer_invariant id (Marlu.UvfitsWriter.mk 1 0 0) ⟨0, 0, 0⟩ 0 1 0
      [] true).1 hok).1
  · exact ⟨by norm_num, (C10_writer_invariant id (Marlu.UvfitsWriter.mk 1 0 0)
      ⟨0, 0, 0⟩ 0 1 0 [] true).2.2 (by norm_num)⟩

namespace Marlu

theorem colChunks_one_singleton {α : Type} (l : List α) :
    colChunks 1 [l] = l.map fun x => [[x]] := by
  induction l with
  | nil =>
    rw [colChunks]
    simp
  | cons x xs ih =>
    rw [colChunks]
    have hcond : ¬ ((1 : Nat) = 0 ∨ (([x :: xs] : List (List α)).headD []).length = 0) := by
      simp
    rw [dif_neg hcond]
    simp only [List.map_cons, List.map_nil, List.take_succ_cons, List.take_zero,
      List.drop_succ_cons, List.drop_zero]
    rw [ih]

end Marlu

/-- C3: with trivial averaging (`avg_time = 1`, `avg_freq = 1`) and all
weights positive (unflagged), the `vis_tmp` row buffer built by
`write_vis_marlu` for one (timestep, baseline) row consists, channel by
channel, of the input Jones elements exactly — no averaging routine is
consulted (the statement holds for every `avgf`) — with the four
polarizations reordered from the input order XX, XY, YX, YY (entries 0–3)
to the uvfits order XX, YY, XY, YX and interleaved as (real, imaginary,
weight) triples. -/
theorem C3_trivial_averaging_exact
    (avgf : List (List Marlu.JonesQ) → List (List ℚ) → Marlu.JonesQ × ℚ)
    (jrow : List Marlu.JonesQ) (wrow : List ℚ)
    (hw : ∀ p ∈ jrow.zip wrow, 0 < p.2) :
    Marlu.write_vis_marlu_vis_tmp 1 1 avgf [jrow] [wrow] =
      ((jrow.zip wrow).map fun p =>
        [p.1.j0.re, p.1.j0.im, p.2, p.1.j3.re, p.1.j3.im, p.2,
         p.1.j1.re, p.1.j1.im, p.2, p.1.j2.re, p.1.j2.im, p.2]).flatten := by
  unfold Marlu.write_vis_marlu_vis_tmp Marlu.write_vis_marlu_vis_chunks
  rw [Marlu.colChunks_one_singleton, Marlu.colChunks_one_singleton,
    List.zip_map, List.map_map]
  congr 1

/-- Witness for `C3_trivial_averaging_exact` at one channel with Jones value
`[[1+2i, 3+4i], [5+6i, 7+8i]]` and weight 2. -/
theorem C3_trivial_averaging_exact_witness :
    (∀ p ∈ ([⟨⟨1, 2⟩, ⟨3, 4⟩, ⟨5, 6⟩, ⟨7, 8⟩⟩] : List Marlu.JonesQ).zip
        ([2] : List ℚ), 0 < p.2) ∧
    Marlu.write_vis_marlu_vis_tmp 1 1 (fun _ _ => (Marlu.JonesQ.zero, 0))
        [[⟨⟨1, 2⟩, ⟨3, 4⟩, ⟨5, 6⟩, ⟨7, 8⟩⟩]] [[2]] =
      ((([⟨⟨1, 2⟩, ⟨3, 4⟩, ⟨5, 6⟩, ⟨7, 8⟩⟩] : List Marlu.JonesQ).zip
          ([2] : List ℚ)).map fun p =>
        [p.1.j0.re, p.1.j0.im, p.2, p.1.j3.re, p.1.j3.im, p.2,
         p.1.j1.re, p.1.j1.im, p.2, p.1.j2.re, p.1.j2.im, p.2]).flatten := by
  have hw : ∀ p ∈ ([⟨⟨1, 2⟩, ⟨3, 4⟩, ⟨5, 6⟩, ⟨7, 8⟩⟩] : List Marlu.JonesQ).zip
      ([2] : List ℚ), 0 < p.2 := by
    intro p hp
    simp only [List.zip_cons_cons, List.zip_nil_right, List.mem_singleton] at hp
    rw [hp]
    norm_num
  exact ⟨hw, C3_trivial_averaging_exact _ _ _ hw⟩

namespace Marlu

/-! ## Helper lemmas for the read_mwalib error policy -/

theorem block_disjoint (fpc p q ch : Nat) (hpq : p ≠ q)
    (h1 : p * fpc ≤ ch) (h2 : ch < p * fpc + fpc) :
    ¬ (q * fpc ≤ ch ∧ ch < q * fpc + fpc) := by
  rintro ⟨hq1, hq2⟩
  rcases Nat.lt_or_ge p q with h | h
  · have hle : p * fpc + fpc ≤ q * fpc := by
      have h' : p + 1 ≤ q := h
      calc p * fpc + fpc = (p + 1) * fpc := by ring
        _ ≤ q * fpc := Nat.mul_le_mul_right fpc h'
    omega
  · have hlt : q < p := by omega
    have hle : q * fpc + fpc ≤ p * fpc := by
      have h' : q + 1 ≤ p := hlt
      calc q * fpc + fpc = (q + 1) * fpc := by ring
        _ ≤ p * fpc := Nat.mul_le_mul_right fpc h'
    omega

theorem read_coarse_chan_ok (read : Nat → Nat → Except GpuboxError (Nat → ℚ))
    (fpc nb : Nat) (bls : List Nat) (c_pos c_idx : Nat) :
    ∀ (ts : List Nat) (s : ReadState),
      (∀ t ∈ ts, (read t c_idx).isOk = true ∨
        read t c_idx = .error .NoDataForTimeStepCoarseChannel) →
      ∃ s', read_coarse_chan read fpc nb bls c_pos c_idx ts s = .ok s' := by
  intro ts
  induction ts with
  | nil => exact fun s _ => ⟨s, rfl⟩
  | cons t ts ih =>
    intro s hall
    have hhd := hall t (List.mem_cons_self t ts)
    have htl : ∀ t' ∈ ts, (read t' c_idx).isOk = true ∨
        read t' c_idx = .error .NoDataForTimeStepCoarseChannel :=
      fun t' ht' => hall t' (List.mem_cons_of_mem _ ht')
    cases hread : read t c_idx with
    | ok buf =>
      simp only [read_coarse_chan, hread]
      exact ih _ htl
    | error e =>
      cases e with
      | NoDataForTimeStepCoarseChannel =>
        simp only [read_coarse_chan, hread]
        exact ih _ htl
      | Other code =>
        rw [hread] at hhd
        rcases hhd with hbad | hbad
        · simp [Except.isOk, Except.toBool] at hbad
        · exact absurd hbad (by simp)

theorem read_coarse_chan_jones_pres
    (read : Nat → Nat → Except GpuboxError (Nat → ℚ))
    (fpc nb : Nat) (bls : List Nat) (c_pos c_idx t₀ ch b : Nat) :
    ∀ (ts : List Nat) (s s' : ReadState),
      read_coarse_chan read fpc nb bls c_pos c_idx ts s = .ok s' →
      (∀ t ∈ ts, t = t₀ → c_pos * fpc ≤ ch → ch < c_pos * fpc + fpc →
        ∀ buf, read t c_idx ≠ .ok buf) →
      s'.jones t₀ ch b = s.jones t₀ ch b := by
  intro ts
  induction ts with
  | nil =>
    intro s s' h _
    simp only [read_coarse_chan] at h
    cases h
    rfl
  | cons t ts ih =>
    intro s s' h hsafe
    have htl := fun t' ht' => hsafe t' (List.mem_cons_of_mem _ ht')
    cases hread : read t c_idx with
    | ok buf =>
      simp only [read_coarse_chan, hread] at h
      have hrec := ih _ _ h htl
      rw [hrec]
      by_cases hcond : t₀ = t ∧ c_pos * fpc ≤ ch ∧ ch < c_pos * fpc + fpc ∧
          b < bls.length
      · exact absurd hread
          (hsafe t (List.mem_cons_self t ts) hcond.1.symm hcond.2.1 hcond.2.2.1 buf)
      · simp [write_jones_block, hcond]
    | error e =>
      cases e with
      | NoDataForTimeStepCoarseChannel =>
        simp only [read_coarse_chan, hread] at h
        have hrec := ih _ _ h htl
        rw [hrec]
        rfl
      | Other code =>
        simp only [read_coarse_chan, hread] at h
        cases h

theorem read_coarse_chan_flags_mono
    (read : Nat → Nat → Except GpuboxError (Nat → ℚ))
    (fpc nb : Nat) (bls : List Nat) (c_pos c_idx t' ch b : Nat) :
    ∀ (ts : List Nat) (s s' : ReadState),
      read_coarse_chan read fpc nb bls c_pos c_idx ts s = .ok s' →
      s.flags t' ch b = true → s'.flags t' ch b = true := by
  intro ts
  induction ts with
  | nil =>
    intro s s' h hf
    simp only [read_coarse_chan] at h
    cases h
    exact hf
  | cons t ts ih =>
    intro s s' h hf
    cases hread : read t c_idx with
    | ok buf =>
      simp only [read_coarse_chan, hread] at h
      exact ih _ _ h hf
    | error e =>
      cases e with
      | NoDataForTimeStepCoarseChannel =>
        simp only [read_coarse_chan, hread] at h
        apply ih _ _ h
        simp only [fill_flags_block]
        split
        · rfl
        · exact hf
      | Other code =>
        simp only [read_coarse_chan, hread] at h
        cases h

theorem read_coarse_chan_flags_set
    (read : Nat → Nat → Except GpuboxError (Nat → ℚ))
    (fpc nb : Nat) (bls : List Nat) (c_pos c_idx t₀ ch b : Nat)
    (hch1 : c_pos * fpc ≤ ch) (hch2 : ch < c_pos * fpc + fpc) (hb : b < nb) :
    ∀ (ts : List Nat) (s s' : ReadState),
      read_coarse_chan read fpc nb bls c_pos c_idx ts s = .ok s' →
      t₀ ∈ ts →
      read t₀ c_idx = .error .NoDataForTimeStepCoarseChannel →
      s'.flags t₀ ch b = true := by
  intro ts
  induction ts with
  | nil =>
    intro s s' _ hmem _
    cases hmem
  | cons t ts ih =>
    intro s s' h hmem hnodata
    by_cases hteq : t = t₀
    · have hrd : read t c_idx = .error .NoDataForTimeStepCoarseChannel := by
        rw [hteq]; exact hnodata
      simp only [read_coarse_chan, hrd] at h
      refine read_coarse_chan_flags_mono read fpc nb bls c_pos c_idx t₀ ch b ts _ _ h ?_
      simp only [fill_flags_block]
      rw [if_pos ⟨hteq.symm, hch1, hch2, hb⟩]
    · have hmem' : t₀ ∈ ts := by
        rcases List.mem_cons.mp hmem with h' | h'
        · exact absurd h'.symm hteq
        · exact h'
      cases hread : read t c_idx with
      | ok buf =>
        simp only [read_coarse_chan, hread] at h
        exact ih _ _ h hmem' hnodata
      | error e =>
        cases e with
        | NoDataForTimeStepCoarseChannel =>
          simp only [read_coarse_chan, hread] at h
          exact ih _ _ h hmem' hnodata
        | Other code =>
          simp only [read_coarse_chan, hread] at h
          cases h

theorem read_coarse_chan_error
    (read : Nat → Nat → Except GpuboxError (Nat → ℚ))
    (fpc nb : Nat) (bls : List Nat) (c_pos c_idx t₁ ec : Nat)
    (herr : read t₁ c_idx = .error (.Other ec)) :
    ∀ (ts : List Nat) (s : ReadState), t₁ ∈ ts →
      (∀ t ∈ ts, t ≠ t₁ → (read t c_idx).isOk = true) →
      read_coarse_chan read fpc nb bls c_pos c_idx ts s = .error (.Other ec) := by
  intro ts
  induction ts with
  | nil =>
    intro s hmem _
    cases hmem
  | cons t ts ih =>
    intro s hmem hok
    by_cases hteq : t = t₁
    · have hrd : read t c_idx = .error (.Other ec) := by rw [hteq]; exact herr
      simp only [read_coarse_chan, hrd]
    · have hmem' : t₁ ∈ ts := by
        rcases List.mem_cons.mp hmem with h' | h'
        · exact absurd h'.symm hteq
        · exact h'
      have hisok := hok t (List.mem_cons_self t ts) hteq
      cases hread : read t c_idx with
      | ok buf =>
        simp only [read_coarse_chan, hread]
        exact ih _ hmem' (fun t' ht' => hok t' (List.mem_cons_of_mem _ ht'))
      | error e =>
        rw [hread] at hisok
        simp [Except.isOk, Except.toBool] at hisok

end Marlu

namespace Marlu

theorem read_chans_ok (read : Nat → Nat → Except GpuboxError (Nat → ℚ))
    (fpc nb : Nat) (bls : List Nat) (ts : List Nat) :
    ∀ (cs : List (Nat × Nat)) (s : ReadState),
      (∀ pc ∈ cs, ∀ t ∈ ts, (read t pc.2).isOk = true ∨
        read t pc.2 = .error .NoDataForTimeStepCoarseChannel) →
      ∃ s', read_chans read fpc nb bls ts cs s = .ok s' := by
  intro cs
  induction cs with
  | nil => exact fun s _ => ⟨s, rfl⟩
  | cons pc cs ih =>
    intro s hall
    obtain ⟨s₁, heq⟩ := read_coarse_chan_ok read fpc nb bls pc.1 pc.2 ts s
      (hall pc (List.mem_cons_self pc cs))
    simp only [read_chans, heq]
    exact ih _ (fun pc' h' => hall pc' (List.mem_cons_of_mem _ h'))

theorem read_chans_jones_pres (read : Nat → Nat → Except GpuboxError (Nat → ℚ))
    (fpc nb : Nat) (bls : List Nat) (ts : List Nat) (t₀ ch b : Nat) :
    ∀ (cs : List (Nat × Nat)) (s s' : ReadState),
      read_chans read fpc nb bls ts cs s = .ok s' →
      (∀ pc ∈ cs, ∀ t ∈ ts, t = t₀ → pc.1 * fpc ≤ ch → ch < pc.1 * fpc + fpc →
        ∀ buf, read t pc.2 ≠ .ok buf) →
      s'.jones t₀ ch b = s.jones t₀ ch b := by
  intro cs
  induction cs with
  | nil =>
    intro s s' h _
    simp only [read_chans] at h
    cases h
    rfl
  | cons pc cs ih =>
    intro s s' h hsafe
    cases hcc : read_coarse_chan read fpc nb bls pc.1 pc.2 ts s with
    | ok s₁ =>
      simp only [read_chans, hcc] at h
      have h2 := ih _ _ h (fun pc' h' => hsafe pc' (List.mem_cons_of_mem _ h'))
      rw [h2]
      exact read_coarse_chan_jones_pres read fpc nb bls pc.1 pc.2 t₀ ch b ts s s₁
        hcc (hsafe pc (List.mem_cons_self pc cs))
    | error e =>
      simp only [read_chans, hcc] at h
      cases h

theorem read_chans_flags_mono (read : Nat → Nat → Except GpuboxError (Nat → ℚ))
    (fpc nb : Nat) (bls : List Nat) (ts : List Nat) (t' ch b : Nat) :
    ∀ (cs : List (Nat × Nat)) (s s' : ReadState),
      read_chans read fpc nb bls ts cs s = .ok s' →
      s.flags t' ch b = true → s'.flags t' ch b = true := by
  intro cs
  induction cs with
  | nil =>
    intro s s' h hf
    simp only [read_chans] at h
    cases h
    exact hf
  | cons pc cs ih =>
    intro s s' h hf
    cases hcc : read_coarse_chan read fpc nb bls pc.1 pc.2 ts s with
    | ok s₁ =>
      simp only [read_chans, hcc] at h
      exact ih _ _ h
        (read_coarse_chan_flags_mono read fpc nb bls pc.1 pc.2 t' ch b ts s s₁ hcc hf)
    | error e =>
      simp only [read_chans, hcc] at h
      cases h

theorem read_chans_flags_set (read : Nat → Nat → Except GpuboxError (Nat → ℚ))
    (fpc nb : Nat) (bls : List Nat) (ts : List Nat) (t₀ p₀ c₀ ch b : Nat)
    (hch1 : p₀ * fpc ≤ ch) (hch2 : ch < p₀ * fpc + fpc) (hb : b < nb)
    (ht₀ : t₀ ∈ ts)
    (hnodata : read t₀ c₀ = .error .NoDataForTimeStepCoarseChannel) :
    ∀ (cs : List (Nat × Nat)) (s s' : ReadState),
      read_chans read fpc nb bls ts cs s = .ok s' →
      (p₀, c₀) ∈ cs →
      s'.flags t₀ ch b = true := by
  intro cs
  induction cs with
  | nil =>
    intro s s' _ hmem
    cases hmem
  | cons pc cs ih =>
    intro s s' h hmem
    cases hcc : read_coarse_chan read fpc nb bls pc.1 pc.2 ts s with
    | error e =>
      simp only [read_chans, hcc] at h
      cases h
    | ok s₁ =>
      simp only [read_chans, hcc] at h
      rcases List.mem_cons.mp hmem with hpc | hpc
      · have hp1 : p₀ = pc.1 := by rw [← hpc]
        have hp2 : c₀ = pc.2 := by rw [← hpc]
        have hset : s₁.flags t₀ ch b = true :=
          read_coarse_chan_flags_set read fpc nb bls pc.1 pc.2 t₀ ch b
            (hp1 ▸ hch1) (hp1 ▸ hch2) hb ts s s₁ hcc ht₀ (hp2 ▸ hnodata)
        exact read_chans_flags_mono read fpc nb bls ts t₀ ch b cs s₁ s' h hset
      · exact ih _ _ h hpc

theorem read_chans_error (read : Nat → Nat → Except GpuboxError (Nat → ℚ))
    (fpc nb : Nat) (bls : List Nat) (ts : List Nat) (t₁ c₁ ec : Nat)
    (ht₁ : t₁ ∈ ts) (herr : read t₁ c₁ = .error (.Other ec)) :
    ∀ (cs : List (Nat × Nat)) (s : ReadState),
      c₁ ∈ cs.map Prod.snd →
      (∀ pc ∈ cs, ∀ t ∈ ts, (t, pc.2) ≠ (t₁, c₁) → (read t pc.2).isOk = true) →
      read_chans read fpc nb bls ts cs s = .error (.Other ec) := by
  intro cs
  induction cs with
  | nil =>
    intro s hmem _
    cases hmem
  | cons pc cs ih =>
    intro s hmem hok
    by_cases hceq : pc.2 = c₁
    · have herr' : read t₁ pc.2 = .error (.Other ec) := by rw [hceq]; exact herr
      have hok' : ∀ t ∈ ts, t ≠ t₁ → (read t pc.2).isOk = true := by
        intro t ht hne
        refine hok pc (List.mem_cons_self pc cs) t ht ?_
        intro heq
        exact hne (congrArg Prod.fst heq)
      have hcc := read_coarse_chan_error read fpc nb bls pc.1 pc.2 t₁ ec herr'
        ts s ht₁ hok'
      simp only [read_chans, hcc]
    · have hallok : ∀ t ∈ ts, (read t pc.2).isOk = true ∨
          read t pc.2 = .error .NoDataForTimeStepCoarseChannel := by
        intro t ht
        left
        refine hok pc (List.mem_cons_self pc cs) t ht ?_
        intro heq
        exact hceq (congrArg Prod.snd heq)
      obtain ⟨s₁, heq⟩ := read_coarse_chan_ok read fpc nb bls pc.1 pc.2 ts s hallok
      simp only [read_chans, heq]
      refine ih _ ?_ (fun pc' h' => hok pc' (List.mem_cons_of_mem _ h'))
      simp only [List.map_cons, List.mem_cons] at hmem
      rcases hmem with h' | h'
      · exact absurd h'.symm hceq
      · exact h'

theorem mem_enumList_iff (r : RangeN) (p c : Nat) :
    (p, c) ∈ r.enumList ↔ p < r.len ∧ c = r.start + p := by
  simp only [RangeN.enumList, List.mem_map, List.mem_range]
  constructor
  · rintro ⟨q, hq, heq⟩
    cases heq
    exact ⟨hq, rfl⟩
  · rintro ⟨hp, rfl⟩
    exact ⟨p, hp, rfl⟩

theorem mem_toList_of (r : RangeN) (p : Nat) (hp : p < r.len) :
    r.start + p ∈ r.toList := by
  simp only [RangeN.toList, List.mem_map, List.mem_range]
  exact ⟨p, hp, rfl⟩

end Marlu

/-- C5: during the `read_mwalib` read loop, for any selected block
(timestep `t₀`, coarse channel `c₀` at chunk position `p₀`): (1) if the
correlator context reports `NoDataForTimeStepCoarseChannel` there and every
other selected block reads successfully, the whole read still returns `Ok`,
every flag of that block is set to `true`, and the block's visibilities are
left exactly as allocated (zero, since `allocate_jones` fills with
`Jones::zero()`); (2) if the context reports any other error there (all
other blocks fine), the whole read aborts and that error is propagated to
the caller. -/
theorem C5_read_mwalib_error_policy (sel : Marlu.VisSelection) (fpc : Nat)
    (read : Nat → Nat → Except Marlu.GpuboxError (Nat → ℚ))
    (s : Marlu.ReadState) (t₀ p₀ c₀ ec : Nat)
    (ht₀ : t₀ ∈ sel.timestep_range.toList)
    (hp₀ : p₀ < sel.coarse_chan_range.len)
    (hc₀ : c₀ = sel.coarse_chan_range.start + p₀) :
    ((read t₀ c₀ = .error .NoDataForTimeStepCoarseChannel) →
      (∀ t ∈ sel.timestep_range.toList, ∀ c ∈ sel.coarse_chan_range.toList,
        (t, c) ≠ (t₀, c₀) → (read t c).isOk = true) →
      ∃ s', sel.read_mwalib_loop fpc read s = .ok s' ∧
        ∀ ch b, p₀ * fpc ≤ ch → ch < p₀ * fpc + fpc →
          b < sel.baseline_idxs.length →
          s'.flags t₀ ch b = true ∧ s'.jones t₀ ch b = s.jones t₀ ch b) ∧
    ((read t₀ c₀ = .error (.Other ec)) →
      (∀ t ∈ sel.timestep_range.toList, ∀ c ∈ sel.coarse_chan_range.toList,
        (t, c) ≠ (t₀, c₀) → (read t c).isOk = true) →
      sel.read_mwalib_loop fpc read s = .error (.Other ec)) := by
  constructor
  · intro hnodata hothers
    have hall : ∀ pc ∈ sel.coarse_chan_range.enumList,
        ∀ t ∈ sel.timestep_range.toList, (read t pc.2).isOk = true ∨
          read t pc.2 = .error .NoDataForTimeStepCoarseChannel := by
      intro pc hpc t ht
      obtain ⟨hplen, hpc2⟩ := (Marlu.mem_enumList_iff _ pc.1 pc.2).mp hpc
      by_cases hbk : (t, pc.2) = (t₀, c₀)
      · right
        have ht' : t = t₀ := congrArg Prod.fst hbk
        have hc' : pc.2 = c₀ := congrArg Prod.snd hbk
        rw [ht', hc']
        exact hnodata
      · left
        exact hothers t ht pc.2
          (by rw [hpc2]; exact Marlu.mem_toList_of _ pc.1 hplen) hbk
    obtain ⟨s', heq⟩ := Marlu.read_chans_ok read fpc sel.baseline_idxs.length
      sel.baseline_idxs sel.timestep_range.toList sel.coarse_chan_range.enumList
      s hall
    refine ⟨s', heq, ?_⟩
    intro ch b hch1 hch2 hb
    constructor
    · exact Marlu.read_chans_flags_set read fpc sel.baseline_idxs.length
        sel.baseline_idxs sel.timestep_range.toList t₀ p₀ c₀ ch b hch1 hch2 hb
        ht₀ hnodata sel.coarse_chan_range.enumList s s' heq
        ((Marlu.mem_enumList_iff _ p₀ c₀).mpr ⟨hp₀, hc₀⟩)
    · refine Marlu.read_chans_jones_pres read fpc sel.baseline_idxs.length
        sel.baseline_idxs sel.timestep_range.toList t₀ ch b
        sel.coarse_chan_range.enumList s s' heq ?_
      intro pc hpc t ht hteq hq1 hq2 buf hrd
      obtain ⟨hplen, hpc2⟩ := (Marlu.mem_enumList_iff _ pc.1 pc.2).mp hpc
      by_cases hpp : pc.1 = p₀
      · have hcc : pc.2 = c₀ := by rw [hpc2, hpp, ← hc₀]
        rw [hteq, hcc, hnodata] at hrd
        cases hrd
      · exact Marlu.block_disjoint fpc p₀ pc.1 ch (fun hx => hpp hx.symm)
          hch1 hch2 ⟨hq1, hq2⟩
  · intro herr hothers
    unfold Marlu.VisSelection.read_mwalib_loop
    refine Marlu.read_chans_error read fpc sel.baseline_idxs.length
      sel.baseline_idxs sel.timestep_range.toList t₀ c₀ ec ht₀ herr
      sel.coarse_chan_range.enumList s ?_ ?_
    · exact List.mem_map.mpr
        ⟨(p₀, c₀), (Marlu.mem_enumList_iff _ p₀ c₀).mpr ⟨hp₀, hc₀⟩, rfl⟩
    · intro pc hpc t ht hne
      obtain ⟨hplen, hpc2⟩ := (Marlu.mem_enumList_iff _ pc.1 pc.2).mp hpc
      exact hothers t ht pc.2
        (by rw [hpc2]; exact Marlu.mem_toList_of _ pc.1 hplen) hne

/-- Witness for `C5_read_mwalib_error_policy`: a 1×1×1 selection whose only
block reports the missing-HDU condition; the read returns `Ok`, the block's
flags are set, and its visibilities stay at their allocated value. -/
theorem C5_read_mwalib_error_policy_witness :
    ((0 : Nat) ∈ (Marlu.RangeN.mk 0 1).toList ∧ (0 : Nat) < (Marlu.RangeN.mk 0 1).len ∧
      (0 : Nat) = (Marlu.RangeN.mk 0 1).start + 0 ∧
      ((fun _ _ => .error .NoDataForTimeStepCoarseChannel :
        Nat → Nat → Except Marlu.GpuboxError (Nat → ℚ)) 0 0 =
          .error .NoDataForTimeStepCoarseChannel) ∧
      (∀ t ∈ (Marlu.RangeN.mk 0 1).toList, ∀ c ∈ (Marlu.RangeN.mk 0 1).toList,
        (t, c) ≠ ((0 : Nat), (0 : Nat)) →
        ((fun _ _ => .error .NoDataForTimeStepCoarseChannel :
          Nat → Nat → Except Marlu.GpuboxError (Nat → ℚ)) t c).isOk = true)) ∧
    (∃ s', (Marlu.VisSelection.mk ⟨0, 1⟩ ⟨0, 1⟩ [0]).read_mwalib_loop 1
        (fun _ _ => .error .NoDataForTimeStepCoarseChannel)
        ⟨fun _ _ _ => Marlu.JonesQ.zero, fun _ _ _ => false⟩ = .ok s' ∧
      ∀ ch b, 0 * 1 ≤ ch → ch < 0 * 1 + 1 →
        b < (Marlu.VisSelection.mk ⟨0, 1⟩ ⟨0, 1⟩ [0]).baseline_idxs.length →
        s'.flags 0 ch b = true ∧
        s'.jones 0 ch b =
          (Marlu.ReadState.mk (fun _ _ _ => Marlu.JonesQ.zero)
            (fun _ _ _ => false)).jones 0 ch b) := by
  refine ⟨⟨by decide, by decide, rfl, rfl, by decide⟩, ?_⟩
  exact (C5_read_mwalib_error_policy (Marlu.VisSelection.mk ⟨0, 1⟩ ⟨0, 1⟩ [0]) 1
    (fun _ _ => .error .NoDataForTimeStepCoarseChannel)
    ⟨fun _ _ _ => Marlu.JonesQ.zero, fun _ _ _ => false⟩ 0 0 0 0
    (by decide) (by decide) rfl).1 rfl (by decide)

/-- Witness for `C6_get_shape`: two selections differing only in
`timestep_range` share the channel and baseline shape components. -/
theorem C6_get_shape_witness :
    ((Marlu.VisSelection.mk ⟨5, 9⟩ ⟨0, 3⟩ [0, 1]).coarse_chan_range =
        (Marlu.VisSelection.mk ⟨0, 2⟩ ⟨0, 3⟩ [0, 1]).coarse_chan_range) ∧
    ((Marlu.VisSelection.mk ⟨5, 9⟩ ⟨0, 3⟩ [0, 1]).baseline_idxs =
        (Marlu.VisSelection.mk ⟨0, 2⟩ ⟨0, 3⟩ [0, 1]).baseline_idxs) ∧
    (((Marlu.VisSelection.mk ⟨5, 9⟩ ⟨0, 3⟩ [0, 1]).get_shape 4).2.1 =
        ((Marlu.VisSelection.mk ⟨0, 2⟩ ⟨0, 3⟩ [0, 1]).get_shape 4).2.1 ∧
      ((Marlu.VisSelection.mk ⟨5, 9⟩ ⟨0, 3⟩ [0, 1]).get_shape 4).2.2 =
        ((Marlu.VisSelection.mk ⟨0, 2⟩ ⟨0, 3⟩ [0, 1]).get_shape 4).2.2) :=
  ⟨rfl, rfl, (C6_get_shape (Marlu.VisSelection.mk ⟨0, 2⟩ ⟨0, 3⟩ [0, 1])
    (Marlu.VisSelection.mk ⟨5, 9⟩ ⟨0, 3⟩ [0, 1]) 4).2.1 rfl rfl⟩
